import Mathlib

/-!
Verification development for the dev_crawl instrumentation and log
reconstruction tool (src/dev_crawl.py).

Modelling conventions used throughout this file:
* A text file is modelled as an `Option (List String)`: `none` stands for a
  file that cannot be read (IOError), `some lines` for its list of lines as
  returned by readlines, with the trailing newline of each line stripped.
  Literal newline escapes that the Python code itself writes into output
  strings are kept verbatim.
* Python string operations are modelled character-exactly on `List Char`:
  `split` on a separator character keeps empty fields, `split()` with no
  argument splits on whitespace runs and drops empty fields, `strip`
  removes the given characters from both ends, and the `in` operator is
  contiguous-substring containment.
* Single-quote characters inside trace text are produced through
  `quoteChar` (code point 39).
-/

/-! Python string primitives. -/

def quoteChar : Char := Char.ofNat 39

def quoteStr : String := ⟨[quoteChar]⟩

/-- The whitespace set of the Python str methods (space, tab, newline,
carriage return, vertical tab, form feed), restricted to ASCII. -/
def isPyWs (c : Char) : Bool :=
  c = ' ' || c = '\t' || c = '\n' || c = '\r' || c = Char.ofNat 11 || c = Char.ofNat 12

/-- Python substring containment, the `in` operator on strings. -/
def pyContains (pat s : String) : Bool := decide (pat.data <:+: s.data)

/-- Python split on a separator predicate, keeping empty fields; with the
predicate testing one character this is str.split(sep) for that separator. -/
def splitPCh (p : Char → Bool) : List Char → List (List Char)
  | [] => [[]]
  | x :: xs =>
    if p x then [] :: splitPCh p xs
    else
      match splitPCh p xs with
      | h :: t => (x :: h) :: t
      | [] => [[x]]

def splitCh (c : Char) : List Char → List (List Char) :=
  splitPCh (fun x => x = c)

/-- Inverse of `splitCh`: join pieces with the separator character,
modelling sep.join(parts). -/
def joinCh (c : Char) : List (List Char) → List Char
  | [] => []
  | [x] => x
  | x :: y :: t => x ++ c :: joinCh c (y :: t)

/-- Python strip with a character set given as a predicate: remove matching
characters from both ends. -/
def stripEnds (p : Char → Bool) (l : List Char) : List Char :=
  ((l.dropWhile p).reverse.dropWhile p).reverse

/-- Python str.strip() with no argument (whitespace on both ends). -/
def pyStrip (s : String) : String := ⟨stripEnds isPyWs s.data⟩

/-- Python str.split() with no argument: split on whitespace runs,
dropping empty fields. -/
def wsTokens (l : List Char) : List (List Char) :=
  (splitPCh isPyWs l).filter (fun t => t ≠ [])

/-- Python string repetition s * n for an int n: empty for n below one. -/
def pyRepeatStr (s : String) (n : Int) : String :=
  ⟨(List.replicate n.toNat s.data).flatten⟩

/-- Python str.split(sep) for a multi-character separator: first occurrence
index of the separator in the remaining text. -/
def findSub (sep : List Char) : List Char → Option Nat
  | [] => none
  | c :: rest => if sep <+: (c :: rest) then some 0 else (findSub sep rest).map (· + 1)

def splitSeqAux (sep : List Char) : Nat → List Char → List (List Char)
  | 0, l => [l]
  | fuel + 1, l =>
    match findSub sep l with
    | none => [l]
    | some i => l.take i :: splitSeqAux sep fuel (l.drop (i + sep.length))

/-- Python str.split(sep) for a non-empty separator string: repeated
left-to-right non-overlapping splitting. The fuel argument bounds the
recursion and is always sufficient. -/
def pySplitSeq (sep s : String) : List String :=
  (splitSeqAux sep.data (s.data.length + 1) s.data).map (fun l => ⟨l⟩)

/-! The log format contract and validation, from src/dev_crawl.py. -/

/-- The identifying header string, constant DEBUG_LOG_IDENTIFIER. -/
def DEBUG_LOG_IDENTIFIER : String := "--- debug.log generated using dev_crawl.py ---"

def invalidLogMessage : String :=
  "Error: the file is not a valid debug log generated by this script"

def unreadableMessage : String :=
  "Error: Unable to read the file. Please check the path and try again."

/-- is_valid_debug_log: reads the first line (empty string for an empty
file), strips surrounding whitespace and compares with the identifier;
an unreadable file yields the IOError message. Returns the empty string
exactly when the log is accepted. -/
def is_valid_debug_log : Option (List String) → String
  | none => unreadableMessage
  | some lines =>
    if pyStrip (lines.headD "") = DEBUG_LOG_IDENTIFIER then "" else invalidLogMessage

/-! The frequency aggregator, analyze_function_calls_in_log. -/

/-- parts = line.split on the single-quote character. -/
def aggParts (line : String) : List (List Char) := splitCh quoteChar line.data

/-- function_name = parts at index 1. -/
def aggFunctionName (line : String) : String := ⟨(aggParts line).getD 1 []⟩

/-- script_name = parts at index 3. -/
def aggScriptName (line : String) : String := ⟨(aggParts line).getD 3 []⟩

/-- key = script_name, separator bar, function_name. -/
def aggKey (line : String) : String := aggScriptName line ++ " | " ++ aggFunctionName line

/-- Increment of an insertion-ordered counting map: bump an existing key in
place or append it with count one, modelling defaultdict(int) increment
while preserving first-seen order. -/
def bumpCount : List (String × Nat) → String → List (String × Nat)
  | [], k => [(k, 1)]
  | (k', c) :: rest, k =>
    if k' = k then (k', c + 1) :: rest else (k', c) :: bumpCount rest k

/-- One loop iteration of analyze_function_calls_in_log: lines containing
Entering with at least four quote-delimited parts are counted, all other
lines are skipped. -/
def analyzeLine (m : List (String × Nat)) (line : String) : List (String × Nat) :=
  if pyContains "Entering" line then
    if 4 ≤ (aggParts line).length then bumpCount m (aggKey line) else m
  else m

/-- analyze_function_calls_in_log over the lines of the log file. -/
def analyze_function_calls_in_log (lines : List String) : List (String × Nat) :=
  lines.foldl analyzeLine []

/-- Total of the counts of a counting map, sum(function_calls.values()). -/
def sumCounts (m : List (String × Nat)) : Nat := (m.map (fun kc => kc.2)).sum

/-! The plain trace reconstructor, reformat_and_output_log. -/

/-- The grouping loop of reformat_and_output_log, carried by the running
enter_count. A tagged line first updates the counter by the Entering and
Exiting containment flags, then is indented by four spaces per unit of the
updated counter; group markers fire at counter zero before an Entering
line and after an Exiting line. Untagged lines get a flat indent. -/
def reformatLines (ec : Int) : List String → List String
  | [] => []
  | line :: rest =>
    if pyContains "Entering" line || pyContains "Exiting" line then
      let pre := if pyContains "Entering" line && ec = 0 then ["\n>>> Starting group:\n"] else []
      let ec2 := ec + (if pyContains "Entering" line then 1 else 0)
                    - (if pyContains "Exiting" line then 1 else 0)
      let post := if pyContains "Exiting" line && ec2 = 0 then ["<<< Ending group:\n"] else []
      pre ++ (pyRepeatStr "    " ec2 ++ line) :: post ++ reformatLines ec2 rest
    else ("    " ++ line) :: reformatLines ec rest

/-- reformat_and_output_log: the grouped lines followed by the completion
marker, as written to the output file. -/
def reformat_and_output_log (lines : List String) : List String :=
  reformatLines 0 lines ++ ["\n>>> Script execution completed <<<\n"]

/-- Projection of the reformat_and_output_log loop: for each tagged line,
the indentation multiplier (the counter value after the update) used when
rendering that line. -/
def plainDepthTrace (ec : Int) : List String → List Int
  | [] => []
  | line :: rest =>
    if pyContains "Entering" line || pyContains "Exiting" line then
      (ec + (if pyContains "Entering" line then 1 else 0)
          - (if pyContains "Exiting" line then 1 else 0))
        :: plainDepthTrace (ec + (if pyContains "Entering" line then 1 else 0)
                               - (if pyContains "Exiting" line then 1 else 0)) rest
    else plainDepthTrace ec rest

/-- output_function_call_summary: the legend lines followed by one line per
counted key, as appended to the reformatted log. -/
def output_function_call_summary (fc : List (String × Nat)) : List String :=
  ["\n>>> Function Call Summary <<<\n",
   "------ Legend ------\n",
   quoteStr ++ "Script Name | Function Name: Called X times" ++ quoteStr ++
     " indicates how many times a function was called.\n",
   "The summary is listed in the order functions were first called.\n",
   "---------------------\n\n"]
  ++ fc.map (fun kc => kc.1 ++ ": Called " ++ toString kc.2 ++ " times\n")

/-! The markup reconstructor, reformat_and_output_log_md. -/

/-- action keyword of a tagged line. -/
def mdActionOf (line : String) : String :=
  if pyContains "Entering" line then "Entering" else "Exiting"

/-- function_name of the markup reconstructor: text between the first pair
of single-quote characters, line.split(quote) at index 1. The source
indexes the split directly and raises IndexError on a tagged line with
fewer than two quote-delimited parts, aborting the whole rendering with no
output written; the model totalizes that access with a default, so every
statement below about the markup rendering is made only at inputs whose
tagged lines all have at least two quote-delimited parts, where the source
and the model agree. -/
def mdFunctionName (line : String) : String := ⟨(splitCh quoteChar line.data).getD 1 []⟩

/-- script_name of the markup reconstructor: last whitespace-delimited
token with quote characters stripped from both ends. -/
def mdScriptName (line : String) : String :=
  ⟨stripEnds (fun c => c = quoteChar) ((wsTokens line.data).getLastD [])⟩

/-- The execution-flow loop of reformat_and_output_log_md. A tagged line is
rendered as a bullet indented by four spaces per unit of the counter value
before any update; then the counter is decremented when the line contains
Exiting (two rule separators when it reaches zero) and incremented
otherwise. Untagged lines pass through. -/
def mdLines (ec : Int) : List String → List String
  | [] => []
  | line :: rest =>
    if pyContains "Entering" line || pyContains "Exiting" line then
      let formatted := pyRepeatStr "    " ec ++ "- **" ++ mdActionOf line ++ "** `"
        ++ mdFunctionName line ++ "` in `" ++ mdScriptName line ++ "`\n"
      if pyContains "Exiting" line then
        formatted :: (if ec - 1 = 0 then ["\n---\n", "\n---\n"] else []) ++ mdLines (ec - 1) rest
      else
        formatted :: mdLines (ec + 1) rest
    else line :: mdLines ec rest

/-- Projection of the mdLines loop: for each tagged line, the indentation
multiplier (the counter value before the update) used when rendering it. -/
def mdDepthTrace (ec : Int) : List String → List Int
  | [] => []
  | line :: rest =>
    if pyContains "Entering" line || pyContains "Exiting" line then
      ec :: mdDepthTrace (if pyContains "Exiting" line then ec - 1 else ec + 1) rest
    else mdDepthTrace ec rest

/-- One summary-table row, enumerating from one and splitting the key back
at the bar separator. -/
def mdTableRows (fc : List (String × Nat)) : List String :=
  fc.enum.map (fun p =>
    "| " ++ toString (p.1 + 1) ++ "   | `" ++ (pySplitSeq " | " p.2.1).getD 0 "" ++ "` | `"
      ++ (pySplitSeq " | " p.2.1).getD 1 "" ++ "` | " ++ toString p.2.2 ++ " |\n")

/-- reformat_and_output_log_md: drops the header line when the stripped
first line equals the identifier, prepends the summary preamble computed by
the aggregator over the whole file, renders the execution flow, and appends
the frequency table. The source indexes the first line directly and is only
reached through validation, which guarantees a non-empty line list; the
model uses a default for totality. -/
def reformat_and_output_log_md (lines : List String) : List String :=
  let body := if pyStrip (lines.headD "") = DEBUG_LOG_IDENTIFIER then lines.tail else lines
  let fc := analyze_function_calls_in_log lines
  ["# Debug Log <small>-> generated using dev_crawl.py</small>\n\n",
   "<details><summary>Click to expand the brief summary</summary>\n\n",
   "- Total function calls: " ++ toString (sumCounts fc) ++ "\n",
   "- Unique functions entered: " ++ toString fc.length ++ "\n",
   "</details>\n\n",
   "## Execution Flow\n\n",
   "<details>\n",
   "<summary>Click to expand the execution flow details</summary>\n\n"]
  ++ mdLines 0 body
  ++ ["\n## Script Execution Completed\n\n</details>\n\n",
      "## Function Call Summary<small> -> in order of execution</small>\n\n",
      "| No. | Script | Function | Calls |\n",
      "| --- | ------ | -------- | ----- |\n"]
  ++ mdTableRows fc

/-! The operation handlers, handle_reformat_log and handle_reformat_log_md.
Their outcome distinguishes rejection (no output file written), the
empty-log advisory (no output file written), and a written output file with
its content. -/

inductive ReformatOutcome where
  | rejected (msg : String)
  | emptyLog
  | written (outLines : List String)
deriving DecidableEq

def isWrittenOutcome : ReformatOutcome → Bool
  | .written _ => true
  | _ => false

/-- The emptiness test of both handlers: every line is whitespace or strips
to the identifier. Each concrete file line carries a trailing newline, so
the isspace test of the source holds exactly when the newline-stripped
content modelled here is all whitespace. -/
def logIsEmptyish (lines : List String) : Bool :=
  lines.all (fun l => l.data.all isPyWs || pyStrip l = DEBUG_LOG_IDENTIFIER)

/-- handle_reformat_log: validation, then the emptiness advisory, else the
reformatted lines are written and the function-call summary of the written
file is appended to the same output file. -/
def handle_reformat_log (file : Option (List String)) : ReformatOutcome :=
  match file with
  | none => .rejected unreadableMessage
  | some lines =>
    if is_valid_debug_log (some lines) = "" then
      if logIsEmptyish lines then .emptyLog
      else .written (reformat_and_output_log lines
        ++ output_function_call_summary (analyze_function_calls_in_log (reformat_and_output_log lines)))
    else .rejected (is_valid_debug_log (some lines))

/-- handle_reformat_log_md: validation, then the emptiness advisory, else
the markdown rendering is written. -/
def handle_reformat_log_md (file : Option (List String)) : ReformatOutcome :=
  match file with
  | none => .rejected unreadableMessage
  | some lines =>
    if is_valid_debug_log (some lines) = "" then
      if logIsEmptyish lines then .emptyLog
      else .written (reformat_and_output_log_md lines)
    else .rejected (is_valid_debug_log (some lines))

/-! Output path construction of the two handlers. os.path.splitext is
modelled by the reference algorithm of the Python standard library for a
slash separator: the extension starts at the last dot when that dot comes
after the last slash and the basename part before it is neither empty nor
all dots. Path normalization by os.path.abspath is omitted; it does not
affect the final path segment the two constructions differ in. -/

/-- Scan of the reversed path: distance from the end to the last dot,
none when a slash intervenes or no dot exists. -/
def extLen : List Char → Nat → Option Nat
  | [], _ => none
  | c :: rest, acc =>
    if c = '/' then none else if c = '.' then some (acc + 1) else extLen rest (acc + 1)

def splitExt (p : List Char) : List Char × List Char :=
  match extLen p.reverse 0 with
  | none => (p, [])
  | some k =>
    if ((p.take (p.length - k)).reverse.takeWhile (fun c => c ≠ '/')).any (fun c => c ≠ '.') then
      (p.take (p.length - k), p.drop (p.length - k))
    else (p, [])

def os_path_splitext (s : String) : String × String :=
  (⟨(splitExt s.data).1⟩, ⟨(splitExt s.data).2⟩)

/-- Output path of handle_reformat_log. -/
def plainReformattedPath (p : String) : String :=
  (os_path_splitext p).1 ++ "_reformatted.log"

/-- Output path of handle_reformat_log_md. -/
def markdownOutputPath (p : String) : String :=
  (os_path_splitext p).1 ++ ".md"

/-! The tree rewriter, class DebugTransformer. Statements of the source
language are modelled by the constructors below; block stands for any
compound statement whose nested statement list the generic visit descends
into (conditionals, loops, class bodies and similar), other for any simple
statement without nested statements, and debug for the synthesized trace
statement built by create_debug_statement (print form or append-to-file
form; the carried string is the traced message). -/

inductive Stmt where
  | funcDef (name : String) (body : List Stmt)
  | asyncFuncDef (name : String) (body : List Stmt)
  | ret
  | imprt (names : List String)
  | importFrom (module : Option String)
  | block (body : List Stmt)
  | debug (msg : String)
  | other

/-- The immutable transformer fields set in the constructor:
script_identifier and modified_scripts. The sink configuration only selects
the concrete shape of the synthesized statement, not the traced message,
and is abstracted by the debug constructor. -/
structure TCfg where
  scriptIdentifier : String
  modifiedScripts : List String

/-- The mutable transformer fields: function_call_counter (a total map
with default zero, modelling defaultdict(int)) and current_function. -/
structure TState where
  functionCallCounter : String → Nat
  currentFunction : Option String

/-- Increment of the occurrence counter of one function name. -/
def bumpCounter (c : String → Nat) (name : String) : String → Nat :=
  fun n => if n = name then c n + 1 else c n

/-- The entry trace text of visit_FunctionDef. -/
def enterMsg (k : Nat) (name ident : String) : String :=
  "[" ++ toString k ++ "] Entering " ++ quoteStr ++ name ++ quoteStr
    ++ " in " ++ quoteStr ++ ident ++ quoteStr

/-- The exit trace text of visit_Return. The index is an integer because
the source computes it by subtracting one from the counter value. -/
def exitMsg (k : Int) (name ident : String) : String :=
  "[" ++ toString k ++ "] Exiting " ++ quoteStr ++ name ++ quoteStr
    ++ " in " ++ quoteStr ++ ident ++ quoteStr

/-- Dots of a module path mapped to the path separator,
alias.name.replace of dot by os.sep. -/
def pathFor (name : String) : String :=
  ⟨name.data.map (fun c => if c = '.' then '/' else c)⟩

/-- The sibling test of visit_Import and visit_ImportFrom: some name of the
instrumented set is a suffix of the separator-mapped module path. The
iteration order over the set is immaterial because every hit triggers the
same rewrite. -/
def scriptMatches (ms : List String) (name : String) : Bool :=
  ms.any (fun m => decide (m.data <:+ (pathFor name).data))

/-- Append the instrumented suffix to the last element of the split path. -/
def addDebugToLast : List (List Char) → List (List Char)
  | [] => []
  | [x] => [x ++ "_debug".data]
  | x :: y :: t => x :: addDebugToLast (y :: t)

/-- The import rewrite: split the dotted name, append the suffix to the
final segment, join with dots. -/
def rewriteModuleName (name : String) : String :=
  ⟨joinCh '.' (addDebugToLast (splitCh '.' name.data))⟩

/-- The alias loop of visit_Import: the first alias whose path matches a
sibling is rewritten and the loop returns, leaving every later alias
untouched; aliases before the hit are kept unchanged. -/
def rewriteImportNames (ms : List String) : List String → List String
  | [] => []
  | a :: rest =>
    if scriptMatches ms a then rewriteModuleName a :: rest
    else a :: rewriteImportNames ms rest

/-- visit_ImportFrom on the source module: a missing module (relative
import) is left alone, a matching module is rewritten. -/
def rewriteImportFrom (ms : List String) : Option String → Option String
  | none => none
  | some m => if scriptMatches ms m then some (rewriteModuleName m) else some m

/-- The visitor walk over a statement list, modelling NodeTransformer
dispatch with the three overridden visit methods and generic_visit
everywhere else. visit_Return returns a list that the caller splices into
the enclosing body. visit_FunctionDef increments the occurrence counter of
the definition name, prepends the entry trace statement, visits the new
body with current_function set to the definition name, and restores the
saved current_function afterwards; the prepended trace statement is itself
visited by the source but is invariant under the visitor. Async function
definitions and blocks only descend into their bodies. -/
def visitStmts (cfg : TCfg) (s : TState) : List Stmt → List Stmt × TState
  | [] => ([], s)
  | .funcDef name body :: rest =>
      (Stmt.funcDef name
          (.debug (enterMsg (bumpCounter s.functionCallCounter name name) name
              cfg.scriptIdentifier)
            :: (visitStmts cfg ⟨bumpCounter s.functionCallCounter name, some name⟩ body).1)
        :: (visitStmts cfg
            ⟨(visitStmts cfg ⟨bumpCounter s.functionCallCounter name, some name⟩ body).2.functionCallCounter,
              s.currentFunction⟩ rest).1,
       (visitStmts cfg
          ⟨(visitStmts cfg ⟨bumpCounter s.functionCallCounter name, some name⟩ body).2.functionCallCounter,
            s.currentFunction⟩ rest).2)
  | .asyncFuncDef name body :: rest =>
      (.asyncFuncDef name (visitStmts cfg s body).1
          :: (visitStmts cfg (visitStmts cfg s body).2 rest).1,
       (visitStmts cfg (visitStmts cfg s body).2 rest).2)
  | .block body :: rest =>
      (.block (visitStmts cfg s body).1
          :: (visitStmts cfg (visitStmts cfg s body).2 rest).1,
       (visitStmts cfg (visitStmts cfg s body).2 rest).2)
  | .ret :: rest =>
      match s.currentFunction with
      | some f =>
          (.debug (exitMsg ((s.functionCallCounter f : Int) - 1) f cfg.scriptIdentifier)
            :: .ret :: (visitStmts cfg s rest).1, (visitStmts cfg s rest).2)
      | none => (.ret :: (visitStmts cfg s rest).1, (visitStmts cfg s rest).2)
  | .imprt names :: rest =>
      (.imprt (rewriteImportNames cfg.modifiedScripts names) :: (visitStmts cfg s rest).1,
       (visitStmts cfg s rest).2)
  | .importFrom m :: rest =>
      (.importFrom (rewriteImportFrom cfg.modifiedScripts m) :: (visitStmts cfg s rest).1,
       (visitStmts cfg s rest).2)
  | .debug m :: rest =>
      (.debug m :: (visitStmts cfg s rest).1, (visitStmts cfg s rest).2)
  | .other :: rest =>
      (.other :: (visitStmts cfg s rest).1, (visitStmts cfg s rest).2)

/-- The visit of a single statement node as dispatched by the transformer. -/
def visitStmt (cfg : TCfg) (s : TState) (st : Stmt) : List Stmt × TState :=
  visitStmts cfg s [st]

/-! Static counting and shape predicates over statement trees. -/

/-- Number of synthesized trace statements in a statement list, nested
bodies included. -/
def countDebugStmts : List Stmt → Nat
  | [] => 0
  | .funcDef _ b :: rest => countDebugStmts b + countDebugStmts rest
  | .asyncFuncDef _ b :: rest => countDebugStmts b + countDebugStmts rest
  | .block b :: rest => countDebugStmts b + countDebugStmts rest
  | .debug _ :: rest => 1 + countDebugStmts rest
  | _ :: rest => countDebugStmts rest

/-- Number of synchronous function definitions in a statement list, nested
bodies included. -/
def countSyncDefs : List Stmt → Nat
  | [] => 0
  | .funcDef _ b :: rest => 1 + countSyncDefs b + countSyncDefs rest
  | .asyncFuncDef _ b :: rest => countSyncDefs b + countSyncDefs rest
  | .block b :: rest => countSyncDefs b + countSyncDefs rest
  | _ :: rest => countSyncDefs rest

/-- No explicit return statement anywhere in the tree. -/
def retFree : List Stmt → Bool
  | [] => true
  | .funcDef _ b :: rest => retFree b && retFree rest
  | .asyncFuncDef _ b :: rest => retFree b && retFree rest
  | .block b :: rest => retFree b && retFree rest
  | .ret :: _ => false
  | _ :: rest => retFree rest

/-- No synthesized trace statement anywhere in the tree; true of every
tree parsed from source text. -/
def debugFree : List Stmt → Bool
  | [] => true
  | .funcDef _ b :: rest => debugFree b && debugFree rest
  | .asyncFuncDef _ b :: rest => debugFree b && debugFree rest
  | .block b :: rest => debugFree b && debugFree rest
  | .debug _ :: _ => false
  | _ :: rest => debugFree rest

/-- No synchronous function definition anywhere in the tree. -/
def syncDefFree : List Stmt → Bool
  | [] => true
  | .funcDef _ _ :: _ => false
  | .asyncFuncDef _ b :: rest => syncDefFree b && syncDefFree rest
  | .block b :: rest => syncDefFree b && syncDefFree rest
  | _ :: rest => syncDefFree rest

/-- No import statement anywhere in the tree. -/
def importFree : List Stmt → Bool
  | [] => true
  | .funcDef _ b :: rest => importFree b && importFree rest
  | .asyncFuncDef _ b :: rest => importFree b && importFree rest
  | .block b :: rest => importFree b && importFree rest
  | .imprt _ :: _ => false
  | .importFrom _ :: _ => false
  | _ :: rest => importFree rest

/-! Concrete sample inputs used by closed witness and counterexample
statements below. -/

/-- A canonical Entering trace line naming function f in unit a.py. -/
def sampleEnterLine : String :=
  "[1] Entering " ++ quoteStr ++ "f" ++ quoteStr ++ " in " ++ quoteStr ++ "a.py" ++ quoteStr

/-- The matching canonical Exiting trace line. -/
def sampleExitLine : String :=
  "[0] Exiting " ++ quoteStr ++ "f" ++ quoteStr ++ " in " ++ quoteStr ++ "a.py" ++ quoteStr

/-- A log whose first line is the identifier preceded by one space. -/
def spacedHeaderLog : List String := [" " ++ DEBUG_LOG_IDENTIFIER, sampleEnterLine]

/-- An Entering trace line whose unit field contains a space. -/
def spacedUnitLine : String :=
  "[1] Entering " ++ quoteStr ++ "f" ++ quoteStr ++ " in " ++ quoteStr ++ "a b" ++ quoteStr

def sampleCfg : TCfg := ⟨"a.py", []⟩

def sampleState : TState := ⟨fun _ => 3, some "g"⟩

def sampleStateNone : TState := ⟨fun _ => 0, none⟩

/-! General helper lemmas about the string primitives. -/

theorem splitPCh_ne_nil (p : Char → Bool) (l : List Char) : splitPCh p l ≠ [] := by
  cases l with
  | nil => simp [splitPCh]
  | cons x xs =>
    simp only [splitPCh]
    by_cases h : p x
    · simp [h]
    · simp only [h]
      cases hs : splitPCh p xs <;> simp

theorem splitPCh_sep (p : Char → Bool) (a y : List Char) (x : Char)
    (ha : ∀ c ∈ a, p c = false) (hx : p x = true) :
    splitPCh p (a ++ x :: y) = a :: splitPCh p y := by
  induction a with
  | nil => simp [splitPCh, hx]
  | cons c t ih =>
    have hc : p c = false := ha c (List.mem_cons_self c t)
    have ih' := ih (fun d hd => ha d (List.mem_cons_of_mem c hd))
    rw [List.cons_append]
    simp only [splitPCh, hc, Bool.false_eq_true, if_false]
    rw [ih']

theorem splitPCh_no_sep (p : Char → Bool) (a : List Char) (ha : ∀ c ∈ a, p c = false) :
    splitPCh p a = [a] := by
  induction a with
  | nil => rfl
  | cons c t ih =>
    have hc : p c = false := ha c (List.mem_cons_self c t)
    have ih' := ih (fun d hd => ha d (List.mem_cons_of_mem c hd))
    simp only [splitPCh, hc, Bool.false_eq_true, if_false, ih']

theorem splitPCh_append_last (p : Char → Bool) (a b : List Char) (x : Char)
    (hb : ∀ c ∈ b, p c = false) (hx : p x = true) :
    splitPCh p (a ++ x :: b) = splitPCh p a ++ [b] := by
  induction a with
  | nil => simp [splitPCh, hx, splitPCh_no_sep p b hb]
  | cons c t ih =>
    rw [List.cons_append]
    by_cases hc : p c
    · simp only [splitPCh, hc, if_true]
      rw [ih]
      rfl
    · simp only [splitPCh, hc, Bool.false_eq_true, if_false]
      rw [ih]
      cases hsa : splitPCh p t with
      | nil => exact absurd hsa (splitPCh_ne_nil p t)
      | cons h1 t1 => simp

theorem joinCh_append_singleton (c : Char) (L : List (List Char)) (z : List Char)
    (hL : L ≠ []) : joinCh c (L ++ [z]) = joinCh c L ++ c :: z := by
  induction L with
  | nil => exact absurd rfl hL
  | cons x t ih =>
    cases t with
    | nil => simp [joinCh]
    | cons y t' =>
      have h2 := ih (by simp)
      rw [List.cons_append]
      simp only [joinCh]
      rw [List.append_assoc]
      exact congrArg (fun w => x ++ c :: w) h2

theorem joinCh_splitCh (c : Char) (l : List Char) : joinCh c (splitCh c l) = l := by
  induction l with
  | nil => rfl
  | cons x xs ih =>
    by_cases h : x = c
    · subst h
      have hx : (fun y => decide (y = x)) x = true := by simp
      show joinCh x (splitPCh (fun y => decide (y = x)) (x :: xs)) = x :: xs
      simp only [splitPCh, hx, if_true]
      cases hs : splitPCh (fun y => decide (y = x)) xs with
      | nil => exact absurd hs (splitPCh_ne_nil _ xs)
      | cons h1 t1 =>
        simp only [joinCh, List.nil_append]
        have hx2 : joinCh x (h1 :: t1) = xs := by
          rw [← hs]; exact ih
        rw [hx2]
    · have hx : (fun y => decide (y = c)) x = false := by simp [h]
      show joinCh c (splitPCh (fun y => decide (y = c)) (x :: xs)) = x :: xs
      simp only [splitPCh, hx, Bool.false_eq_true, if_false]
      cases hs : splitPCh (fun y => decide (y = c)) xs with
      | nil => exact absurd hs (splitPCh_ne_nil _ xs)
      | cons h1 t1 =>
        have hx2 : joinCh c (h1 :: t1) = xs := by
          rw [← hs]; exact ih
        cases t1 with
        | nil =>
          simp only [joinCh] at hx2 ⊢
          rw [hx2]
        | cons u t2 =>
          simp only [joinCh] at hx2 ⊢
          rw [← hx2]
          simp

theorem addDebugToLast_append (L : List (List Char)) (x : List Char) :
    addDebugToLast (L ++ [x]) = L ++ [x ++ "_debug".data] := by
  induction L with
  | nil => rfl
  | cons c t ih =>
    cases t with
    | nil => rfl
    | cons d t' =>
      rw [List.cons_append]
      show c :: addDebugToLast ((d :: t') ++ [x]) = _
      rw [ih]
      rfl

theorem stripEnds_wrap (p : Char → Bool) (q : Char) (u : List Char)
    (hq : p q = true) (hu : ∀ c ∈ u, p c = false) :
    stripEnds p (q :: (u ++ [q])) = u := by
  cases u with
  | nil => simp [stripEnds, List.dropWhile_cons, hq]
  | cons c0 u0 =>
    have hc : p c0 = false := hu c0 (List.mem_cons_self c0 u0)
    have h1 : List.dropWhile p (q :: (c0 :: u0 ++ [q])) = c0 :: u0 ++ [q] := by
      rw [List.dropWhile_cons]
      simp only [hq, if_true]
      rw [List.cons_append, List.dropWhile_cons]
      simp [hc]
    have h2 : (c0 :: u0 ++ [q]).reverse = q :: (c0 :: u0).reverse := by
      rw [List.cons_append, ← List.cons_append]
      simp
    unfold stripEnds
    rw [h1, h2, List.dropWhile_cons]
    simp only [hq, if_true]
    cases hur : (c0 :: u0).reverse with
    | nil => simp at hur
    | cons d r' =>
      have hd : d ∈ c0 :: u0 := by
        have hm : d ∈ (c0 :: u0).reverse := by rw [hur]; exact List.mem_cons_self d r'
        exact List.mem_reverse.mp hm
      rw [List.dropWhile_cons]
      simp only [hu d hd, Bool.false_eq_true, if_false]
      rw [← hur]
      simp

theorem wsTokens_last (x b : List Char) (sp : Char) (hsp : isPyWs sp = true)
    (hbne : b ≠ []) (hb : ∀ c ∈ b, isPyWs c = false) :
    (wsTokens (x ++ sp :: b)).getLastD [] = b := by
  unfold wsTokens
  rw [splitPCh_append_last isPyWs x b sp hb hsp, List.filter_append]
  have hfb : List.filter (fun t => t ≠ []) [b] = [b] := by simp [hbne]
  rw [hfb, List.getLastD_concat]

/-! String structure glue. -/

theorem strExt {a b : String} (h : a.data = b.data) : a = b :=
  congrArg String.mk h

theorem strDataAppend (s t : String) : (s ++ t).data = s.data ++ t.data :=
  String.data_append s t

theorem strMkData (s : String) : (⟨s.data⟩ : String) = s := rfl

/-! Lemmas about the splitext model. -/

theorem extLen_some (r : List Char) :
    ∀ (acc k : Nat), extLen r acc = some k →
      ∃ a b, r = a ++ '.' :: b ∧ k = acc + a.length + 1 := by
  induction r with
  | nil => intro acc k h; simp [extLen] at h
  | cons c rest ih =>
    intro acc k h
    by_cases h1 : c = '/'
    · simp [extLen, h1] at h
    · by_cases h2 : c = '.'
      · simp [extLen, h1, h2] at h
        refine ⟨[], rest, by simp [h2], by simp; omega⟩
      · obtain ⟨a, b, hr, hk⟩ := ih (acc + 1) k (by simpa [extLen, h1, h2] using h)
        refine ⟨c :: a, b, by simp [hr], ?_⟩
        simp [hk]
        omega

theorem splitExt_append (p : List Char) : (splitExt p).1 ++ (splitExt p).2 = p := by
  unfold splitExt
  split
  · simp
  · split
    · exact List.take_append_drop _ p
    · simp

theorem splitExt_dot (p : List Char) :
    (splitExt p).2 = [] ∨ ∃ t, (splitExt p).2 = '.' :: t := by
  unfold splitExt
  split
  · left; rfl
  next k heq =>
    split
    next hc =>
      right
      obtain ⟨a, b, hr, hk⟩ := extLen_some p.reverse 0 k heq
      have hp : p = b.reverse ++ '.' :: a.reverse := by
        have h2 := congrArg List.reverse hr
        simpa [List.reverse_append] using h2
      have hlp : p.length = b.length + 1 + a.length := by
        rw [hp]
        simp
        omega
      have hlen : p.length - k = b.length := by omega
      refine ⟨a.reverse, ?_⟩
      rw [hlen]
      conv_lhs => rw [hp]
      rw [show b.length = b.reverse.length from (List.length_reverse b).symm]
      exact List.drop_left b.reverse ('.' :: a.reverse)
    next => left; rfl

theorem os_path_splitext_glue (p : String) :
    (os_path_splitext p).1 ++ (os_path_splitext p).2 = p := by
  apply strExt
  rw [strDataAppend]
  show (splitExt p.data).1 ++ (splitExt p.data).2 = p.data
  exact splitExt_append p.data

/-! Helper lemmas about the visitor walk. -/

theorem debugFree_zero (l : List Stmt) (h : debugFree l = true) :
    countDebugStmts l = 0 := by
  induction l using debugFree.induct with
  | case1 => simp [countDebugStmts]
  | case2 name b rest ihb ihr =>
    simp only [debugFree, Bool.and_eq_true] at h
    simp only [countDebugStmts, ihb h.1, ihr h.2]
  | case3 name b rest ihb ihr =>
    simp only [debugFree, Bool.and_eq_true] at h
    simp only [countDebugStmts, ihb h.1, ihr h.2]
  | case4 b rest ihb ihr =>
    simp only [debugFree, Bool.and_eq_true] at h
    simp only [countDebugStmts, ihb h.1, ihr h.2]
  | case5 m rest => simp [debugFree] at h
  | case6 st rest hne1 hne2 hne3 hne4 ihr =>
    cases st <;> simp_all [debugFree, countDebugStmts]

theorem visit_countDebug (cfg : TCfg) (s : TState) (l : List Stmt) :
    retFree l = true →
    countDebugStmts (visitStmts cfg s l).1 = countDebugStmts l + countSyncDefs l := by
  induction s, l using visitStmts.induct cfg with
  | case1 s => intro h; simp [visitStmts, countDebugStmts, countSyncDefs]
  | case2 s name body rest ihb ihr =>
    intro h
    simp only [retFree, Bool.and_eq_true] at h
    simp only [visitStmts, countDebugStmts, countSyncDefs]
    have e1 := ihb h.1
    have e2 := ihr h.2
    omega
  | case3 s name body rest ihb ihr =>
    intro h
    simp only [retFree, Bool.and_eq_true] at h
    simp only [visitStmts, countDebugStmts, countSyncDefs]
    have e1 := ihb h.1
    have e2 := ihr h.2
    omega
  | case4 s body rest ihb ihr =>
    intro h
    simp only [retFree, Bool.and_eq_true] at h
    simp only [visitStmts, countDebugStmts, countSyncDefs]
    have e1 := ihb h.1
    have e2 := ihr h.2
    omega
  | case5 s rest f hf ihr =>
    intro h
    simp [retFree] at h
  | case6 s rest hf ihr =>
    intro h
    simp [retFree] at h
  | case7 s names rest ihr =>
    intro h
    simp only [retFree] at h
    simp only [visitStmts, countDebugStmts, countSyncDefs]
    exact ihr h
  | case8 s m rest ihr =>
    intro h
    simp only [retFree] at h
    simp only [visitStmts, countDebugStmts, countSyncDefs]
    exact ihr h
  | case9 s m rest ihr =>
    intro h
    simp only [retFree] at h
    simp only [visitStmts, countDebugStmts, countSyncDefs]
    have e := ihr h
    omega
  | case10 s rest ihr =>
    intro h
    simp only [retFree] at h
    simp only [visitStmts, countDebugStmts, countSyncDefs]
    exact ihr h

theorem visit_passthrough (cfg : TCfg) (s : TState) (l : List Stmt) :
    s.currentFunction = none → syncDefFree l = true → importFree l = true →
    visitStmts cfg s l = (l, s) := by
  induction s, l using visitStmts.induct cfg with
  | case1 s => intro _ _ _; simp [visitStmts]
  | case2 s name body rest ihb ihr =>
    intro _ hs _
    simp [syncDefFree] at hs
  | case3 s name body rest ihb ihr =>
    intro hc hs hi
    simp only [syncDefFree, Bool.and_eq_true] at hs
    simp only [importFree, Bool.and_eq_true] at hi
    have e1 := ihb hc hs.1 hi.1
    simp only [visitStmts, e1]
    have e2 := ihr (by rw [e1]; exact hc) hs.2 hi.2
    rw [e1] at e2
    simp only [e2]
  | case4 s body rest ihb ihr =>
    intro hc hs hi
    simp only [syncDefFree, Bool.and_eq_true] at hs
    simp only [importFree, Bool.and_eq_true] at hi
    have e1 := ihb hc hs.1 hi.1
    simp only [visitStmts, e1]
    have e2 := ihr (by rw [e1]; exact hc) hs.2 hi.2
    rw [e1] at e2
    simp only [e2]
  | case5 s rest f hf ihr =>
    intro hc hs hi
    rw [hc] at hf
    exact absurd hf (by simp)
  | case6 s rest hf ihr =>
    intro hc hs hi
    simp only [syncDefFree] at hs
    simp only [importFree] at hi
    simp only [visitStmts, hf, ihr hc hs hi]
  | case7 s names rest ihr =>
    intro _ _ hi
    simp [importFree] at hi
  | case8 s m rest ihr =>
    intro _ _ hi
    simp [importFree] at hi
  | case9 s m rest ihr =>
    intro hc hs hi
    simp only [syncDefFree] at hs
    simp only [importFree] at hi
    simp only [visitStmts, ihr hc hs hi]
  | case10 s rest ihr =>
    intro hc hs hi
    simp only [syncDefFree] at hs
    simp only [importFree] at hi
    simp only [visitStmts, ihr hc hs hi]

/-! Helper lemmas about the import rewrite. -/

theorem rewriteModuleName_nodot (n : String) (hn : ∀ c ∈ n.data, c ≠ '.') :
    rewriteModuleName n = n ++ "_debug" := by
  apply strExt
  show joinCh '.' (addDebugToLast (splitCh '.' n.data)) = (n ++ "_debug").data
  have h1 : splitCh '.' n.data = [n.data] :=
    splitPCh_no_sep _ n.data (fun c hc => by simp [hn c hc])
  rw [h1]
  show joinCh '.' [n.data ++ "_debug".data] = (n ++ "_debug").data
  rw [strDataAppend]
  simp [joinCh]

theorem rewriteModuleName_append (a b : String) (hb : ∀ c ∈ b.data, c ≠ '.') :
    rewriteModuleName (a ++ "." ++ b) = a ++ "." ++ b ++ "_debug" := by
  apply strExt
  have hdata : (a ++ "." ++ b).data = a.data ++ '.' :: b.data := by
    rw [strDataAppend, strDataAppend]
    simp
  show joinCh '.' (addDebugToLast (splitCh '.' (a ++ "." ++ b).data))
      = (a ++ "." ++ b ++ "_debug").data
  rw [hdata]
  have hsplit : splitCh '.' (a.data ++ '.' :: b.data) = splitCh '.' a.data ++ [b.data] :=
    splitPCh_append_last _ a.data b.data '.' (fun c hc => by simp [hb c hc]) (by simp)
  rw [hsplit, addDebugToLast_append,
    joinCh_append_singleton '.' (splitCh '.' a.data) (b.data ++ "_debug".data)
      (splitPCh_ne_nil _ a.data), joinCh_splitCh]
  rw [strDataAppend, hdata]
  simp [List.append_assoc]

/-! Helper lemmas about the frequency aggregator. -/

theorem sumCounts_bump (m : List (String × Nat)) (k : String) :
    sumCounts (bumpCount m k) = sumCounts m + 1 := by
  induction m with
  | nil => simp [bumpCount, sumCounts]
  | cons kc rest ih =>
    obtain ⟨k', c⟩ := kc
    by_cases h : k' = k
    · simp only [bumpCount, h, if_true, sumCounts, List.map_cons, List.sum_cons]
      omega
    · simp only [bumpCount, h, if_false, sumCounts, List.map_cons, List.sum_cons] at ih ⊢
      omega

theorem sumCounts_fold (lines : List String) :
    ∀ m, sumCounts (List.foldl analyzeLine m lines)
      = sumCounts m
        + (lines.filter
            (fun l => pyContains "Entering" l && decide (4 ≤ (aggParts l).length))).length := by
  induction lines with
  | nil => intro m; simp
  | cons line rest ih =>
    intro m
    simp only [List.foldl_cons, List.filter_cons]
    by_cases hE : pyContains "Entering" line = true
    · by_cases hlen : 4 ≤ (aggParts line).length
      · have hstep : analyzeLine m line = bumpCount m (aggKey line) := by
          simp [analyzeLine, hE, hlen]
        rw [hstep, ih (bumpCount m (aggKey line)), sumCounts_bump]
        have hpred : (pyContains "Entering" line && decide (4 ≤ (aggParts line).length)) = true := by
          simp [hE, hlen]
        rw [hpred]
        simp
        omega
      · have hstep : analyzeLine m line = m := by
          simp [analyzeLine, hE, hlen]
        rw [hstep, ih m]
        have hpred : (pyContains "Entering" line && decide (4 ≤ (aggParts line).length)) = false := by
          simp [hE, hlen]
        rw [hpred]
        simp
    · have hstep : analyzeLine m line = m := by
        simp [analyzeLine, hE]
      rw [hstep, ih m]
      have hpred : (pyContains "Entering" line && decide (4 ≤ (aggParts line).length)) = false := by
        simp [hE]
      rw [hpred]
      simp

/-- Claim C2: for every explicit return statement visited while a tracked
function is current, the rewriter splices exactly one exit trace statement
immediately before it, carrying the bracketed value of the occurrence
counter of that name minus one, the innermost tracked function name, and the
unit identifier; after finishing a nested function definition the
current-function context is restored to the saved enclosing value, so a
return following a nested definition still exits the outer function. -/
theorem c2_return_exit_injection :
    (∀ (cfg : TCfg) (s : TState) (f : String), s.currentFunction = some f →
        visitStmt cfg s .ret
          = ([.debug (exitMsg ((s.functionCallCounter f : Int) - 1) f cfg.scriptIdentifier),
              .ret], s))
    ∧ (∀ (cfg : TCfg) (s : TState) (name : String) (body : List Stmt),
        ((visitStmt cfg s (.funcDef name body)).2).currentFunction = s.currentFunction)
    ∧ (∀ (cfg : TCfg) (s : TState) (g name : String) (body rest : List Stmt),
        s.currentFunction = some g →
        visitStmts cfg s (.funcDef name body :: .ret :: rest)
          = ((visitStmt cfg s (.funcDef name body)).1
               ++ .debug (exitMsg
                    ((((visitStmt cfg s (.funcDef name body)).2).functionCallCounter g : Int) - 1)
                    g cfg.scriptIdentifier)
               :: .ret :: (visitStmts cfg (visitStmt cfg s (.funcDef name body)).2 rest).1,
             (visitStmts cfg (visitStmt cfg s (.funcDef name body)).2 rest).2)) := by
  refine ⟨?_, ?_, ?_⟩
  · intro cfg s f h
    simp [visitStmt, visitStmts, h]
  · intro cfg s name body
    simp [visitStmt, visitStmts]
  · intro cfg s g name body rest h
    simp [visitStmt, visitStmts, h]

theorem c2_return_exit_injection_witness :
    visitStmt sampleCfg sampleState .ret
      = ([.debug (exitMsg ((sampleState.functionCallCounter "g" : Int) - 1) "g"
            sampleCfg.scriptIdentifier), .ret], sampleState)
    ∧ visitStmts sampleCfg sampleState [.funcDef "n" [], .ret]
      = ((visitStmt sampleCfg sampleState (.funcDef "n" [])).1
           ++ .debug (exitMsg
                ((((visitStmt sampleCfg sampleState (.funcDef "n" [])).2).functionCallCounter "g" : Int) - 1)
                "g" sampleCfg.scriptIdentifier)
           :: .ret :: (visitStmts sampleCfg (visitStmt sampleCfg sampleState (.funcDef "n" [])).2 []).1,
         (visitStmts sampleCfg (visitStmt sampleCfg sampleState (.funcDef "n" [])).2 []).2) :=
  ⟨c2_return_exit_injection.1 sampleCfg sampleState "g" rfl,
   c2_return_exit_injection.2.2 sampleCfg sampleState "g" "n" [] [] rfl⟩

/-- Claim C3: a function definition whose body subtree contains no explicit
return statement is rewritten by prepending exactly one entry trace
statement as the first statement of its body, and the rewritten tree
contains exactly one trace statement per synchronous definition occurrence
and none elsewhere, in particular zero exit trace statements. -/
theorem c3_no_return_no_exit (cfg : TCfg) (s : TState) (name : String) (body : List Stmt)
    (h1 : retFree [Stmt.funcDef name body] = true)
    (h2 : debugFree [Stmt.funcDef name body] = true) :
    (visitStmt cfg s (.funcDef name body)).1
      = [Stmt.funcDef name
          (.debug (enterMsg (s.functionCallCounter name + 1) name cfg.scriptIdentifier)
            :: (visitStmts cfg ⟨bumpCounter s.functionCallCounter name, some name⟩ body).1)]
    ∧ countDebugStmts (visitStmt cfg s (.funcDef name body)).1
        = countSyncDefs [Stmt.funcDef name body] := by
  constructor
  · simp [visitStmt, visitStmts, bumpCounter]
  · show countDebugStmts (visitStmts cfg s [Stmt.funcDef name body]).1 = _
    rw [visit_countDebug cfg s _ h1, debugFree_zero _ h2]
    omega

theorem c3_no_return_no_exit_witness :
    (visitStmt sampleCfg sampleStateNone (.funcDef "f" [.other])).1
      = [Stmt.funcDef "f"
          (.debug (enterMsg (sampleStateNone.functionCallCounter "f" + 1) "f"
              sampleCfg.scriptIdentifier)
            :: (visitStmts sampleCfg
                ⟨bumpCounter sampleStateNone.functionCallCounter "f", some "f"⟩ [.other]).1)]
    ∧ countDebugStmts (visitStmt sampleCfg sampleStateNone (.funcDef "f" [.other])).1
        = countSyncDefs [Stmt.funcDef "f" [.other]] :=
  c3_no_return_no_exit sampleCfg sampleStateNone "f" [.other]
    (by simp [retFree]) (by simp [debugFree])

/-- Claim C9: only synchronous function definitions are instrumented. A
statement list containing no synchronous definition and no import, visited
with no current function (all enclosing definitions async or none),
passes through the rewrite completely unchanged, state included: no entry
statement, no counter increment, and no exit statement before any return.
An async definition node itself only has its body visited: nothing is
prepended to it and it contributes no state change of its own. -/
theorem c9_async_untraced :
    (∀ (cfg : TCfg) (s : TState) (l : List Stmt),
        s.currentFunction = none → syncDefFree l = true → importFree l = true →
        visitStmts cfg s l = (l, s))
    ∧ (∀ (cfg : TCfg) (s : TState) (name : String) (body : List Stmt),
        visitStmt cfg s (.asyncFuncDef name body)
          = ([.asyncFuncDef name (visitStmts cfg s body).1], (visitStmts cfg s body).2)) := by
  constructor
  · exact visit_passthrough
  · intro cfg s name body
    simp [visitStmt, visitStmts]

theorem c9_async_untraced_witness :
    visitStmts sampleCfg sampleStateNone [.asyncFuncDef "a" [.ret], .other]
      = ([.asyncFuncDef "a" [.ret], .other], sampleStateNone) :=
  c9_async_untraced.1 sampleCfg sampleStateNone [.asyncFuncDef "a" [.ret], .other]
    rfl (by simp [syncDefFree]) (by simp [importFree])

/-- Claim C4: in a plain import node, the first alias whose dot-to-slash
mapped path ends with an instrumented sibling base name is rewritten by
appending the suffix to its final dotted segment; earlier non-matching
aliases and all later aliases are untouched, and a node with no matching
alias is unchanged. The same matching applies to the module of an
import-from node. The rewrite itself appends the suffix to the final
dotted segment of the name. -/
theorem c4_import_rewrite :
    (∀ (ms : List String) (pre : List String), ∀ (a : String) (rest : List String),
        (∀ x ∈ pre, scriptMatches ms x = false) → scriptMatches ms a = true →
        rewriteImportNames ms (pre ++ a :: rest) = pre ++ rewriteModuleName a :: rest)
    ∧ (∀ (ms : List String) (names : List String),
        (∀ x ∈ names, scriptMatches ms x = false) → rewriteImportNames ms names = names)
    ∧ (∀ (cfg : TCfg) (s : TState) (names : List String),
        visitStmt cfg s (.imprt names)
          = ([.imprt (rewriteImportNames cfg.modifiedScripts names)], s))
    ∧ (∀ (cfg : TCfg) (s : TState) (m : String),
        visitStmt cfg s (.importFrom (some m))
          = ([.importFrom (if scriptMatches cfg.modifiedScripts m then
                some (rewriteModuleName m) else some m)], s))
    ∧ (∀ (a b : String), (∀ c ∈ b.data, c ≠ '.') →
        rewriteModuleName (a ++ "." ++ b) = a ++ "." ++ b ++ "_debug")
    ∧ (∀ n : String, (∀ c ∈ n.data, c ≠ '.') → rewriteModuleName n = n ++ "_debug") := by
  refine ⟨?_, ?_, ?_, ?_, rewriteModuleName_append, rewriteModuleName_nodot⟩
  · intro ms pre
    induction pre with
    | nil =>
      intro a rest hpre ha
      simp [rewriteImportNames, ha]
    | cons x t ih =>
      intro a rest hpre ha
      have hx : scriptMatches ms x = false := hpre x (List.mem_cons_self x t)
      rw [List.cons_append]
      simp only [rewriteImportNames, hx, Bool.false_eq_true, if_false]
      rw [ih a rest (fun y hy => hpre y (List.mem_cons_of_mem x hy)) ha]
      simp
  · intro ms names
    induction names with
    | nil => intro h; rfl
    | cons x t ih =>
      intro h
      have hx : scriptMatches ms x = false := h x (List.mem_cons_self x t)
      simp only [rewriteImportNames, hx, Bool.false_eq_true, if_false]
      rw [ih (fun y hy => h y (List.mem_cons_of_mem x hy))]
  · intro cfg s names
    simp [visitStmt, visitStmts]
  · intro cfg s m
    simp [visitStmt, visitStmts, rewriteImportFrom]

theorem c4_import_rewrite_witness :
    rewriteImportNames ["utils"] (["os"] ++ "pkg.utils" :: ["sys"])
      = ["os"] ++ rewriteModuleName "pkg.utils" :: ["sys"]
    ∧ rewriteImportNames ["utils"] ["os", "sys"] = ["os", "sys"]
    ∧ rewriteModuleName ("pkg" ++ "." ++ "utils") = "pkg" ++ "." ++ "utils" ++ "_debug" :=
  ⟨c4_import_rewrite.1 ["utils"] ["os"] "pkg.utils" ["sys"] (by decide) (by decide),
   c4_import_rewrite.2.1 ["utils"] ["os", "sys"] (by decide),
   c4_import_rewrite.2.2.2.2.1 "pkg" "utils" (by decide)⟩

/-- Claim C1 counterexample: a log whose first line is the identifier
preceded by one space has a first line different from the exact identifier,
yet both reconstruction handlers write an output file, and the frequency
aggregation function processes a header-less log without any rejection. -/
theorem c1_header_rejection_counterexample :
    (" " ++ DEBUG_LOG_IDENTIFIER ≠ DEBUG_LOG_IDENTIFIER)
    ∧ isWrittenOutcome (handle_reformat_log (some spacedHeaderLog)) = true
    ∧ isWrittenOutcome (handle_reformat_log_md (some spacedHeaderLog)) = true
    ∧ analyze_function_calls_in_log [sampleEnterLine] = [("a.py | f", 1)] := by
  decide

/-- Claim C1 (amended): a log whose first line, after stripping surrounding
whitespace, differs from the identifying header is rejected by the plain
and markup reconstruction entry points with zero output files written; the
frequency aggregation function itself performs no header check and is only
reached through the validated reconstruction paths. -/
theorem c1_header_rejection_amended (lines : List String)
    (h : pyStrip (lines.headD "") ≠ DEBUG_LOG_IDENTIFIER) :
    handle_reformat_log (some lines) = .rejected invalidLogMessage
    ∧ handle_reformat_log_md (some lines) = .rejected invalidLogMessage := by
  have hv : is_valid_debug_log (some lines) = invalidLogMessage := by
    simp only [is_valid_debug_log]
    rw [if_neg h]
  have hne : ¬(is_valid_debug_log (some lines) = "") := by
    rw [hv]; decide
  constructor
  · simp only [handle_reformat_log]
    rw [if_neg hne, hv]
  · simp only [handle_reformat_log_md]
    rw [if_neg hne, hv]

theorem c1_header_rejection_amended_witness :
    handle_reformat_log (some ["bad log"]) = .rejected invalidLogMessage
    ∧ handle_reformat_log_md (some ["bad log"]) = .rejected invalidLogMessage :=
  c1_header_rejection_amended ["bad log"] (by decide)

/-- Claim C10: validation strips leading and trailing whitespace from the
first line before comparing with the identifier, so a log whose first line
equals the header up to surrounding whitespace is accepted as valid and not
rejected by either reconstruction entry point; validation returns the empty
string exactly for accepted logs and a non-empty message otherwise,
including for an unreadable file. -/
theorem c10_validation_strip :
    (∀ lines : List String, pyStrip (lines.headD "") = DEBUG_LOG_IDENTIFIER →
        is_valid_debug_log (some lines) = ""
        ∧ (∀ m, handle_reformat_log (some lines) ≠ .rejected m)
        ∧ (∀ m, handle_reformat_log_md (some lines) ≠ .rejected m))
    ∧ (∀ lines : List String, pyStrip (lines.headD "") ≠ DEBUG_LOG_IDENTIFIER →
        is_valid_debug_log (some lines) ≠ "")
    ∧ is_valid_debug_log none ≠ "" := by
  refine ⟨?_, ?_, ?_⟩
  · intro lines h
    have hv : is_valid_debug_log (some lines) = "" := by
      simp only [is_valid_debug_log]
      rw [if_pos h]
    refine ⟨hv, ?_, ?_⟩
    · intro m
      simp only [handle_reformat_log]
      rw [if_pos hv]
      by_cases he : logIsEmptyish lines = true
      · rw [if_pos he]; simp
      · rw [if_neg he]; simp
    · intro m
      simp only [handle_reformat_log_md]
      rw [if_pos hv]
      by_cases he : logIsEmptyish lines = true
      · rw [if_pos he]; simp
      · rw [if_neg he]; simp
  · intro lines h
    simp only [is_valid_debug_log]
    rw [if_neg h]
    decide
  · decide

theorem c10_validation_strip_witness :
    is_valid_debug_log (some spacedHeaderLog) = ""
    ∧ handle_reformat_log (some spacedHeaderLog) ≠ .rejected invalidLogMessage
    ∧ handle_reformat_log_md (some spacedHeaderLog) ≠ .rejected invalidLogMessage
    ∧ is_valid_debug_log (some ["x"]) ≠ "" :=
  ⟨(c10_validation_strip.1 spacedHeaderLog (by decide)).1,
   (c10_validation_strip.1 spacedHeaderLog (by decide)).2.1 invalidLogMessage,
   (c10_validation_strip.1 spacedHeaderLog (by decide)).2.2 invalidLogMessage,
   c10_validation_strip.2.1 ["x"] (by decide)⟩

/-- Claim C6 counterexample: a line containing the Entering tag but no
quote characters is an Entering line of the log, yet the aggregator skips
it, so the total of the produced mapping is zero while the log has one
Entering line. -/
theorem c6_total_counterexample :
    sumCounts (analyze_function_calls_in_log ["xEntering"]) = 0
    ∧ (List.filter (fun l => pyContains "Entering" l) ["xEntering"]).length = 1
    ∧ sumCounts (analyze_function_calls_in_log ["xEntering"])
        ≠ (List.filter (fun l => pyContains "Entering" l) ["xEntering"]).length := by
  decide

/-- Claim C6 (amended): for every log, the total of the mapping produced by
the frequency aggregator equals the number of lines that contain the
Entering tag and split into at least four quote-delimited parts; Entering
lines with fewer quote-delimited parts are skipped and not counted. -/
theorem c6_total_amended (lines : List String) :
    sumCounts (analyze_function_calls_in_log lines)
      = (lines.filter
          (fun l => pyContains "Entering" l && decide (4 ≤ (aggParts l).length))).length := by
  unfold analyze_function_calls_in_log
  rw [sumCounts_fold]
  simp [sumCounts]

/-- Claim C5 counterexample: on a canonical Entering trace line, on which
the markup reconstructor computes without error, the plain reconstructor
renders the line at the updated depth (one level) while the markup
reconstructor renders it at the depth before the update (zero levels), so
the two reconstructors do not assign the line the same nesting depth. -/
theorem c5_depth_discipline_counterexample :
    plainDepthTrace 0 [sampleEnterLine] = [1]
    ∧ mdDepthTrace 0 [sampleEnterLine] = [0]
    ∧ plainDepthTrace 0 [sampleEnterLine] ≠ mdDepthTrace 0 [sampleEnterLine]
    ∧ ("    " ++ sampleEnterLine) ∈ reformat_and_output_log [sampleEnterLine]
    ∧ ("- **Entering** `f` in `a.py`\n") ∈ reformat_and_output_log_md [sampleEnterLine] := by
  decide

/-- Claim C5 (amended): on every log whose tagged lines carry exactly one
of the two tags and split into at least two quote-delimited parts (so the
markup reconstructor renders them without raising), the two reconstructors
update the depth counter identically, but the markup reconstructor renders
each tagged line at the counter value before the update while the plain
reconstructor renders it at the value after the update; hence the markup
depth of an Entering line is the plain depth minus one and the markup
depth of an Exiting line is the plain depth plus one, never the same. -/
theorem c5_depth_discipline_amended (lines : List String) :
    ∀ ec : Int,
      (∀ l ∈ lines, ¬(pyContains "Entering" l = true ∧ pyContains "Exiting" l = true)) →
      (∀ l ∈ lines, (pyContains "Entering" l || pyContains "Exiting" l) = true →
          2 ≤ (splitCh quoteChar l.data).length) →
      mdDepthTrace ec lines
        = List.zipWith (fun l d => if pyContains "Entering" l then d - 1 else d + 1)
            (lines.filter (fun l => pyContains "Entering" l || pyContains "Exiting" l))
            (plainDepthTrace ec lines) := by
  induction lines with
  | nil => intro ec h hq; simp [mdDepthTrace, plainDepthTrace]
  | cons line rest ih =>
    intro ec h hq
    have hrest := fun l hl => h l (List.mem_cons_of_mem line hl)
    have hqrest := fun l hl => hq l (List.mem_cons_of_mem line hl)
    by_cases hE : pyContains "Entering" line = true
    · have hX : pyContains "Exiting" line = false := by
        cases hx : pyContains "Exiting" line
        · rfl
        · exact absurd ⟨hE, hx⟩ (h line (List.mem_cons_self line rest))
      simp only [mdDepthTrace, plainDepthTrace, List.filter_cons, hE, hX, Bool.true_or,
        Bool.or_false, if_true, if_false, Bool.false_eq_true, List.zipWith_cons_cons,
        sub_zero]
      rw [ih (ec + 1) hrest hqrest]
      simp [hE]
    · by_cases hX : pyContains "Exiting" line = true
      · simp only [mdDepthTrace, plainDepthTrace, List.filter_cons, hE, hX, Bool.false_or,
          Bool.or_true, if_true, if_false, Bool.false_eq_true, List.zipWith_cons_cons,
          add_zero]
        rw [ih (ec - 1) hrest hqrest]
        simp [hE]
      · simp only [mdDepthTrace, plainDepthTrace, List.filter_cons, hE, hX, Bool.or_self,
          Bool.false_eq_true, if_false]
        exact ih ec hrest hqrest

theorem c5_depth_discipline_amended_witness :
    mdDepthTrace 0 [sampleEnterLine, sampleExitLine]
      = List.zipWith (fun l d => if pyContains "Entering" l then d - 1 else d + 1)
          (([sampleEnterLine, sampleExitLine]).filter
            (fun l => pyContains "Entering" l || pyContains "Exiting" l))
          (plainDepthTrace 0 [sampleEnterLine, sampleExitLine]) :=
  c5_depth_discipline_amended [sampleEnterLine, sampleExitLine] 0 (by decide) (by decide)

/-- Claim C7 counterexample: on an Entering line whose unit field contains
a space, the aggregator extracts the text between the second pair of
quotes while the markup reconstructor extracts the last whitespace token
stripped of quotes, and the two unit identifiers differ. -/
theorem c7_extraction_counterexample :
    aggScriptName spacedUnitLine = "a b"
    ∧ mdScriptName spacedUnitLine = "b"
    ∧ aggScriptName spacedUnitLine ≠ mdScriptName spacedUnitLine
    ∧ aggFunctionName spacedUnitLine = mdFunctionName spacedUnitLine := by
  decide

/-- Claim C7 (amended): both consumers extract the function name by the
same rule, the text between the first pair of single quotes. The unit
rules differ in general, the aggregator reading the text between the
second pair of quotes and the markup reconstructor reading the last
whitespace-delimited token with quote characters stripped from both ends;
on canonical trace lines, built from a quote-free prefix, a quote-free
function name and a quote-free whitespace-free unit, the two unit
extractions agree. -/
theorem c7_extraction_amended :
    (∀ line : String, aggFunctionName line = mdFunctionName line)
    ∧ (∀ pre f u : String,
        (∀ c ∈ pre.data, c ≠ quoteChar) → (∀ c ∈ f.data, c ≠ quoteChar) →
        (∀ c ∈ u.data, c ≠ quoteChar) → (∀ c ∈ u.data, isPyWs c = false) →
        aggFunctionName (pre ++ quoteStr ++ f ++ quoteStr ++ " in " ++ quoteStr ++ u ++ quoteStr)
            = f
        ∧ aggScriptName (pre ++ quoteStr ++ f ++ quoteStr ++ " in " ++ quoteStr ++ u ++ quoteStr)
            = u
        ∧ mdScriptName (pre ++ quoteStr ++ f ++ quoteStr ++ " in " ++ quoteStr ++ u ++ quoteStr)
            = u) := by
  constructor
  · intro line; rfl
  · intro pre f u hpre hf hu huw
    have hq : quoteStr.data = [quoteChar] := rfl
    have hdata :
        (pre ++ quoteStr ++ f ++ quoteStr ++ " in " ++ quoteStr ++ u ++ quoteStr).data
          = pre.data ++ quoteChar
              :: (f.data ++ quoteChar :: (" in ".data ++ quoteChar :: (u.data ++ [quoteChar]))) := by
      simp only [strDataAppend, hq]
      simp [List.append_assoc]
    have hparts :
        aggParts (pre ++ quoteStr ++ f ++ quoteStr ++ " in " ++ quoteStr ++ u ++ quoteStr)
          = [pre.data, f.data, " in ".data, u.data, []] := by
      show splitPCh (fun x => x = quoteChar) _ = _
      rw [hdata]
      rw [splitPCh_sep _ pre.data _ quoteChar (fun c hc => by simp [hpre c hc]) (by simp)]
      rw [splitPCh_sep _ f.data _ quoteChar (fun c hc => by simp [hf c hc]) (by simp)]
      rw [splitPCh_sep _ " in ".data _ quoteChar (by decide) (by simp)]
      rw [show u.data ++ [quoteChar] = u.data ++ quoteChar :: [] from rfl]
      rw [splitPCh_sep _ u.data _ quoteChar (fun c hc => by simp [hu c hc]) (by simp)]
      rfl
    refine ⟨?_, ?_, ?_⟩
    · show (⟨(aggParts _).getD 1 []⟩ : String) = f
      rw [hparts]
      exact strMkData f
    · show (⟨(aggParts _).getD 3 []⟩ : String) = u
      rw [hparts]
      exact strMkData u
    · show (⟨stripEnds (fun c => c = quoteChar)
          ((wsTokens (pre ++ quoteStr ++ f ++ quoteStr ++ " in " ++ quoteStr ++ u ++ quoteStr).data).getLastD [])⟩ : String)
        = u
      have hin : " in ".data = [' ', 'i', 'n', ' '] := rfl
      have hshape :
          (pre ++ quoteStr ++ f ++ quoteStr ++ " in " ++ quoteStr ++ u ++ quoteStr).data
            = (pre.data ++ quoteChar :: (f.data ++ quoteChar :: [' ', 'i', 'n']))
                ++ ' ' :: (quoteChar :: (u.data ++ [quoteChar])) := by
        rw [hdata, hin]
        simp [List.append_assoc]
      rw [hshape]
      rw [wsTokens_last _ _ ' ' (by decide) (by simp) ?hb]
      case hb =>
        intro c hc
        rcases List.mem_cons.mp hc with hc1 | hc2
        · rw [hc1]; decide
        · rcases List.mem_append.mp hc2 with hc3 | hc4
          · exact huw c hc3
          · have : c = quoteChar := by simpa using hc4
            rw [this]; decide
      rw [stripEnds_wrap (fun c => c = quoteChar) quoteChar u.data (by simp)
        (fun c hc => by simp [hu c hc])]

theorem c7_extraction_amended_witness :
    aggFunctionName sampleEnterLine = "f"
    ∧ aggScriptName sampleEnterLine = "a.py"
    ∧ mdScriptName sampleEnterLine = "a.py" :=
  c7_extraction_amended.2 "[1] Entering " "f" "a.py"
    (by decide) (by decide) (by decide) (by decide)

/-- Claim C8 counterexample: the plain reconstruction writes to a path
formed from the stem plus a reformatted suffix, which differs from the
input log path, contradicting the claimed in-place overwrite. -/
theorem c8_output_paths_counterexample :
    plainReformattedPath "debug.log" = "debug_reformatted.log"
    ∧ plainReformattedPath "debug.log" ≠ "debug.log"
    ∧ markdownOutputPath "debug.log" = "debug.md" := by
  decide

/-- Claim C8 (amended): the plain reconstruction never writes over the
input log in place, its output path always differs from the input path;
the markup reconstruction writes to the stem with an md extension, which
coincides with the input path exactly when the input already has the md
extension. -/
theorem c8_output_paths_amended (p : String) :
    plainReformattedPath p ≠ p
    ∧ (markdownOutputPath p = p ↔ (os_path_splitext p).2 = ".md") := by
  have hgl : (splitExt p.data).1 ++ (splitExt p.data).2 = p.data := splitExt_append p.data
  constructor
  · intro hEq
    have hd := congrArg String.data hEq
    unfold plainReformattedPath at hd
    rw [strDataAppend] at hd
    have hd2 : (splitExt p.data).1 ++ "_reformatted.log".data
        = (splitExt p.data).1 ++ (splitExt p.data).2 := by
      rw [hgl]; exact hd
    have hcancel := List.append_cancel_left hd2
    rcases splitExt_dot p.data with h4 | ⟨t, h4⟩
    · rw [h4] at hcancel
      exact absurd hcancel (by decide)
    · rw [h4] at hcancel
      have hhead : "_reformatted.log".data.headD 'x' = '.' := by rw [hcancel]; rfl
      exact absurd hhead (by decide)
  · constructor
    · intro hEq
      have hd := congrArg String.data hEq
      unfold markdownOutputPath at hd
      rw [strDataAppend] at hd
      have hd2 : (splitExt p.data).1 ++ ".md".data
          = (splitExt p.data).1 ++ (splitExt p.data).2 := by
        rw [hgl]; exact hd
      have hcancel := List.append_cancel_left hd2
      exact strExt hcancel.symm
    · intro hEq
      apply strExt
      unfold markdownOutputPath
      rw [strDataAppend]
      show (splitExt p.data).1 ++ ".md".data = p.data
      have h2 : (splitExt p.data).2 = ".md".data := congrArg String.data hEq
      rw [← h2]
      exact hgl

theorem c8_output_paths_amended_witness :
    plainReformattedPath "a/b.txt" ≠ "a/b.txt"
    ∧ (markdownOutputPath "a/b.txt" = "a/b.txt"
        ↔ (os_path_splitext "a/b.txt").2 = ".md") :=
  c8_output_paths_amended "a/b.txt"
